import Mathlib

/-!
# Wireless link performance models

A shallow embedding of the formula functions found in the pages of the
simulator (`src/pages/beamforming.js`, `mimo.js`, `mcs.js`, `mmwave.js`,
`slicing.js`) together with the properties stated about them.

Modelling conventions.

* In the first part a JavaScript Number is idealised as a real number:
  rounding and overflow of IEEE doubles are not modelled there.  `Math.pow`,
  `Math.log2`, `Math.log10`, `Math.sqrt`, `Math.exp`, `Math.abs`, `Math.max`,
  `Math.min` are the real functions of the same name.  Theorems over this part
  are stated on domains where the doubles behave like the reals for the
  property at hand: counts at least 1, bounded SNRs, counts and distances, and
  arguments that are not a few units in the last place apart.
* Where rounding decides a property, the formulas are repeated in namespace
  `Binary64` with round-to-nearest after every operation; the ties and
  plateaus of the running code are proved there.
* `mmwave.js` is also studied outside that domain (non-positive heights), so
  its functions are embedded over `JsNumber`, which keeps apart finite Numbers
  and the non-finite ones (`NaN`, `Infinity`, `-Infinity`).
* String-valued selectors (architecture, service type, modulation) stay
  strings, compared with `===` in the source and with `=` here.
-/

namespace FiveG

noncomputable section

/-! ## beamforming.js -/

/-- Constant `BANDWIDTH = 100e6` of beamforming.js (100 MHz in Hz). -/
def BANDWIDTH : ℝ := 100000000

/-- Constant `NOISE_FIGURE = 10 ** (-174 / 10)` of beamforming.js. -/
def NOISE_FIGURE : ℝ := (10 : ℝ) ^ ((-174 : ℝ) / 10)

/-- Function `simulateBeamforming(beamformingType, antennas, users, snr)` of
beamforming.js.  The chain of `if / else if` on the architecture multiplies the
base capacity by 1.15, 1.35 or 1.25 and leaves it unchanged for any other
string.  `noisePower` is computed and never used, as in the source. -/
def simulateBeamforming (beamformingType : String) (antennas users snr : ℝ) : ℝ :=
  let snrLinear : ℝ := (10 : ℝ) ^ (snr / 10)
  let _noisePower : ℝ := NOISE_FIGURE * BANDWIDTH
  let capacity : ℝ := BANDWIDTH * Real.logb 2 (1 + snrLinear)
  let capacity : ℝ :=
    if beamformingType = "analog" then capacity * 1.15
    else if beamformingType = "digital" then capacity * 1.35
    else if beamformingType = "hybrid" then capacity * 1.25
    else capacity
  let capacityPerUser : ℝ := capacity / users
  let effectiveCapacity : ℝ := capacityPerUser / Real.sqrt antennas
  max effectiveCapacity 1000

/-- The array `antennasRange = Array.from({ length: antennas }, (_, i) => i + 1)`
of the page's effect: the antenna counts 1 to `antennas`. -/
def antennasRange (antennas : ℕ) : List ℕ :=
  (List.range antennas).map (fun i => i + 1)

/-- The array `capacityResults` of the page's effect: `simulateBeamforming`
mapped over `antennasRange`, with architecture, users and SNR held fixed. -/
def capacityResults (beamformingType : String) (antennas : ℕ) (users snr : ℝ) : List ℝ :=
  (antennasRange antennas).map
    (fun (antenna : ℕ) => simulateBeamforming beamformingType (antenna : ℝ) users snr)

/-! ## mimo.js -/

/-- The object `{ spectralEfficiency, capacity }` returned by
`calculatePerformance`. -/
structure Performance where
  spectralEfficiency : ℝ
  capacity : ℝ

/-- Function `calculatePerformance(antennas, users)` of mimo.js.  The local
constant `snr = 25` (commented "in dB" in the source) enters the logarithm as
it is. -/
def calculatePerformance (antennas users : ℝ) : Performance :=
  let snr : ℝ := 25
  let bandwidth : ℝ := 100000000
  let spectralEfficiency : ℝ := Real.logb 2 (1 + snr * (antennas / users))
  let capacity : ℝ := spectralEfficiency * bandwidth
  { spectralEfficiency := spectralEfficiency, capacity := capacity }

/-! ## mcs.js -/

/-- Function `erf(x)` of mcs.js: the five-coefficient approximation of the
error function, with the sign of `x` saved and restored. -/
def erf (x : ℝ) : ℝ :=
  let a1 : ℝ := 0.254829592
  let a2 : ℝ := -0.284496736
  let a3 : ℝ := 1.421413741
  let a4 : ℝ := -1.453152027
  let a5 : ℝ := 1.061405429
  let p : ℝ := 0.3275911
  let sign : ℝ := if x ≥ 0 then 1 else -1
  let x : ℝ := |x|
  let t : ℝ := 1.0 / (1.0 + p * x)
  let y : ℝ :=
    1.0 - ((((a5 * t + a4) * t + a3) * t + a2) * t + a1) * t * Real.exp (-x * x)
  sign * y

/-- Function `qFunction(x)` of mcs.js. -/
def qFunction (x : ℝ) : ℝ :=
  0.5 * (1 - erf (x / Real.sqrt 2))

/-- The polynomial factor of `erf`, as a function of `t = 1 / (1 + p * |x|)`:
the Horner expression `((((a5 * t + a4) * t + a3) * t + a2) * t + a1) * t` of
the source.  Used to state the lemmas about `erf`. -/
def erfPoly (t : ℝ) : ℝ :=
  ((((1.061405429 * t + -1.453152027) * t + 1.421413741) * t + -0.284496736) * t
    + 0.254829592) * t

/-- Function `calculateBER(modulation, snr)` of mcs.js.  The `null` returned by
the `default` branch of the `switch` is `none`. -/
def calculateBER (modulation : String) (snr : ℝ) : Option ℝ :=
  match modulation with
  | "BPSK" => some (qFunction (Real.sqrt (2 * snr)))
  | "QPSK" => some (qFunction (Real.sqrt (2 * snr)))
  | "16-QAM" => some ((3 / 8) * qFunction (Real.sqrt ((4 / 5) * snr)))
  | "64-QAM" => some ((7 / 24) * qFunction (Real.sqrt ((6 / 7) * snr)))
  | _ => none

/-! ## Results of calls -/

/-- The error kinds of the specification's taxonomy.  A call that signals an
error is `Except.error`; a call that returns is `Except.ok`. -/
inductive ModelError where
  | invalidParameter
  deriving DecidableEq

/-- A JavaScript Number as far as `mmwave.js` can tell values apart: a finite
real, or one of the non-finite Numbers `NaN`, `Infinity`, `-Infinity`. -/
inductive JsNumber where
  | fin (v : ℝ)
  | nonFinite

namespace JsNumber

/-- JavaScript `+`: a non-finite operand gives a non-finite result. -/
def add : JsNumber → JsNumber → JsNumber
  | fin x, fin y => fin (x + y)
  | _, _ => nonFinite

/-- JavaScript binary `-`: a non-finite operand gives a non-finite result. -/
def sub : JsNumber → JsNumber → JsNumber
  | fin x, fin y => fin (x - y)
  | _, _ => nonFinite

/-- JavaScript `*`: a non-finite operand gives a non-finite result
(`Infinity * 0` is `NaN`). -/
def mul : JsNumber → JsNumber → JsNumber
  | fin x, fin y => fin (x * y)
  | _, _ => nonFinite

instance : Add JsNumber := ⟨add⟩

instance : Sub JsNumber := ⟨sub⟩

instance : Mul JsNumber := ⟨mul⟩

/-- `Math.log10`: finite on positive arguments, `-Infinity` at 0, `NaN` on
negative arguments and on `NaN`, `Infinity` at `Infinity`. -/
def log10 : JsNumber → JsNumber
  | fin v => if 0 < v then fin (Real.logb 10 v) else nonFinite
  | nonFinite => nonFinite

/-- `Math.pow(x, n)` for a natural exponent `n`: `Math.pow(x, 0)` is 1 for
every `x`, and a non-finite base with `n > 0` gives a non-finite result. -/
def pow : JsNumber → ℕ → JsNumber
  | fin v, n => fin (v ^ n)
  | nonFinite, n => if n = 0 then fin 1 else nonFinite

end JsNumber

/-! ## mmwave.js -/

/-- Constant `OKUMURA_HATA = "urban"` of mmwave.js. -/
def OKUMURA_HATA : String := "urban"

/-- Constant `INDOOR = "indoor"` of mmwave.js. -/
def INDOOR : String := "indoor"

/-- Function `okunmuraHataModel(frequency, bsHeight, mobileHeight, distance)`
of mmwave.js.  The body has no `throw` and no test of its arguments: the call
always returns the Number the formula evaluates to. -/
def okunmuraHataModel (frequency bsHeight mobileHeight distance : ℝ) :
    Except ModelError JsNumber :=
  let aMobile : JsNumber :=
    JsNumber.fin 3.2
        * JsNumber.pow (JsNumber.log10 (JsNumber.fin 11.75 * JsNumber.fin mobileHeight)) 2
      - JsNumber.fin 4.97
  let pathLoss : JsNumber :=
    JsNumber.fin 69.55
      + JsNumber.fin 26.16 * JsNumber.log10 (JsNumber.fin frequency)
      - JsNumber.fin 13.82 * JsNumber.log10 (JsNumber.fin bsHeight)
      - aMobile
      + (JsNumber.fin 44.9 - JsNumber.fin 6.55 * JsNumber.log10 (JsNumber.fin bsHeight))
          * JsNumber.log10 (JsNumber.fin distance)
  Except.ok pathLoss

/-- Function `indoorModel(frequency, distance)` of mmwave.js. -/
def indoorModel (frequency distance : ℝ) : Except ModelError JsNumber :=
  let pathLoss : JsNumber :=
    JsNumber.fin 40 * JsNumber.log10 (JsNumber.fin distance)
      + JsNumber.fin 20 * JsNumber.log10 (JsNumber.fin frequency)
      - JsNumber.fin 147.55
  Except.ok pathLoss

/-- The array `distances = Array.from({ length: 20 }, (_, i) => i + 1)` of the
page's effect: the distances 1 to 20 km. -/
def distances : List ℝ :=
  (List.range 20).map (fun i => ((i + 1 : ℕ) : ℝ))

/-- The callback of `distances.map` in the page's effect: the loss at distance
`d`, with the `if (environment === OKUMURA_HATA) ... else ...` of the source. -/
def lossAt (environment : String) (frequency bsHeight mobileHeight d : ℝ) :
    Except ModelError JsNumber :=
  if environment = OKUMURA_HATA then okunmuraHataModel frequency bsHeight mobileHeight d
  else indoorModel frequency d

/-- The array `losses` of the page's effect. -/
def losses (environment : String) (frequency bsHeight mobileHeight : ℝ) :
    List (Except ModelError JsNumber) :=
  distances.map (lossAt environment frequency bsHeight mobileHeight)

/-! ## slicing.js -/

/-- Constant `EMBB = "eMBB"` of slicing.js. -/
def EMBB : String := "eMBB"

/-- Constant `URLLC = "URLLC"` of slicing.js. -/
def URLLC : String := "URLLC"

/-- Constant `MMTC = "mMTC"` of slicing.js. -/
def MMTC : String := "mMTC"

/-- Function `simulateThroughput(load, service)` of slicing.js.  The `switch`
has a `default` branch returning the Number 0; no branch throws. -/
def simulateThroughput (load : ℝ) (service : String) : Except ModelError ℝ :=
  let maxThroughput : ℝ := 1000
  if service = EMBB then Except.ok (min maxThroughput (100 * Real.logb 10 (load + 1)))
  else if service = URLLC then Except.ok (min maxThroughput (50 * load ^ (0.7 : ℝ)))
  else if service = MMTC then Except.ok (min maxThroughput (30 * Real.logb 10 (load + 1)))
  else Except.ok 0

/-- Function `simulateLatency(load, service)` of slicing.js.  The `switch` has
a `default` branch returning the Number 0; no branch throws. -/
def simulateLatency (load : ℝ) (service : String) : Except ModelError ℝ :=
  if service = EMBB then Except.ok (10 + load * 0.2)
  else if service = URLLC then Except.ok (max 1 (2 + load * 0.1))
  else if service = MMTC then Except.ok (15 + load * 0.5)
  else Except.ok 0

/-! ## Double-precision arithmetic

The definitions above compute with exact reals.  The ones below repeat the
formulas of `mcs.js`, `mmwave.js` and `mimo.js` with the rounding of IEEE 754
binary64, the arithmetic JavaScript Numbers really have: every operation
returns the double nearest to the exact result, ties to even.  The exponent
range is not bounded (overflow and subnormal numbers are not modelled), and
`Math.exp`, `Math.log10`, `Math.log2`, which ECMAScript leaves
implementation-approximated, are taken correctly rounded.  Arguments stand for
doubles.  Literals that are doubles themselves (`1.0`, `0.5`, `2`, `25`, `40`,
`100e6`) are written as they are; the others are rounded with `fl`. -/

namespace Binary64

/-- Nearest integer to `y`, ties to the even neighbour. -/
def roundHalfEven (y : ℝ) : ℤ :=
  if y - (⌊y⌋ : ℝ) < 1 / 2 then ⌊y⌋
  else if 1 / 2 < y - (⌊y⌋ : ℝ) then ⌊y⌋ + 1
  else if Even ⌊y⌋ then ⌊y⌋
  else ⌊y⌋ + 1

/-- The double nearest to the real `x`: with `e = ⌊log2 |x|⌋`, the multiple of
`2^(e - 52)` nearest to `x` (53 significant bits), ties to even. -/
def fl (x : ℝ) : ℝ :=
  if x = 0 then 0
  else (roundHalfEven (x / (2 : ℝ) ^ (Int.log 2 |x| - 52)) : ℝ) * (2 : ℝ) ^ (Int.log 2 |x| - 52)

/-- JavaScript `a + b` on doubles. -/
def add (a b : ℝ) : ℝ := fl (a + b)

/-- JavaScript `a - b` on doubles. -/
def sub (a b : ℝ) : ℝ := fl (a - b)

/-- JavaScript `a * b` on doubles. -/
def mul (a b : ℝ) : ℝ := fl (a * b)

/-- JavaScript `a / b` on doubles, `b` not zero. -/
def div (a b : ℝ) : ℝ := fl (a / b)

/-- `Math.sqrt` on a non-negative double. -/
def sqrt (x : ℝ) : ℝ := fl (Real.sqrt x)

/-- `Math.exp` on a double. -/
def exp (x : ℝ) : ℝ := fl (Real.exp x)

/-- `Math.log10` on a positive double. -/
def log10 (x : ℝ) : ℝ := fl (Real.logb 10 x)

/-- `Math.log2` on a positive double. -/
def log2 (x : ℝ) : ℝ := fl (Real.logb 2 x)

/-- Function `erf(x)` of mcs.js in double arithmetic. -/
def erf (x : ℝ) : ℝ :=
  let a1 : ℝ := fl 0.254829592
  let a2 : ℝ := fl (-0.284496736)
  let a3 : ℝ := fl 1.421413741
  let a4 : ℝ := fl (-1.453152027)
  let a5 : ℝ := fl 1.061405429
  let p : ℝ := fl 0.3275911
  let sign : ℝ := if x ≥ 0 then 1 else -1
  let x : ℝ := |x|
  let t : ℝ := div 1 (add 1 (mul p x))
  let y : ℝ :=
    sub 1 (mul (mul (add (mul (add (mul (add (mul (add (mul a5 t) a4) t) a3) t) a2) t) a1) t)
      (exp (mul (-x) x)))
  mul sign y

/-- Function `qFunction(x)` of mcs.js in double arithmetic. -/
def qFunction (x : ℝ) : ℝ :=
  mul 0.5 (sub 1 (erf (div x (sqrt 2))))

/-- Function `calculateBER(modulation, snr)` of mcs.js in double arithmetic,
for `snr ≥ 0`. -/
def calculateBER (modulation : String) (snr : ℝ) : Option ℝ :=
  match modulation with
  | "BPSK" => some (qFunction (sqrt (mul 2 snr)))
  | "QPSK" => some (qFunction (sqrt (mul 2 snr)))
  | "16-QAM" => some (mul (div 3 8) (qFunction (sqrt (mul (div 4 5) snr))))
  | "64-QAM" => some (mul (div 7 24) (qFunction (sqrt (mul (div 6 7) snr))))
  | _ => none

/-- Function `indoorModel(frequency, distance)` of mmwave.js in double
arithmetic, for positive frequency and distance. -/
def indoorModel (frequency distance : ℝ) : ℝ :=
  sub (add (mul 40 (log10 distance)) (mul 20 (log10 frequency))) (fl 147.55)

/-- Function `calculatePerformance(antennas, users)` of mimo.js in double
arithmetic, for positive counts. -/
def calculatePerformance (antennas users : ℝ) : Performance :=
  let snr : ℝ := 25
  let bandwidth : ℝ := 100000000
  let spectralEfficiency : ℝ := log2 (add 1 (mul snr (div antennas users)))
  let capacity : ℝ := mul spectralEfficiency bandwidth
  { spectralEfficiency := spectralEfficiency, capacity := capacity }

end Binary64

/-! ## Properties

### Beamforming capacity -/

/-- The base capacity `BANDWIDTH * log2 (1 + 10^(snr/10))` is positive. -/
theorem baseCapacity_pos (snr : ℝ) :
    0 < BANDWIDTH * Real.logb 2 (1 + (10 : ℝ) ^ (snr / 10)) := by
  have h10 : (0 : ℝ) < (10 : ℝ) ^ (snr / 10) := Real.rpow_pos_of_pos (by norm_num) _
  have hlog : 0 < Real.logb 2 (1 + (10 : ℝ) ^ (snr / 10)) :=
    Real.logb_pos (by norm_num) (by linarith)
  have hB : (0 : ℝ) < BANDWIDTH := by unfold BANDWIDTH; norm_num
  exact mul_pos hB hlog

/-- Unfolded form of the analog branch. -/
theorem simulateBeamforming_analog (a u s : ℝ) :
    simulateBeamforming "analog" a u s
      = max (BANDWIDTH * Real.logb 2 (1 + (10 : ℝ) ^ (s / 10)) * 1.15 / u / Real.sqrt a) 1000 := by
  simp [simulateBeamforming]

/-- Unfolded form of the digital branch. -/
theorem simulateBeamforming_digital (a u s : ℝ) :
    simulateBeamforming "digital" a u s
      = max (BANDWIDTH * Real.logb 2 (1 + (10 : ℝ) ^ (s / 10)) * 1.35 / u / Real.sqrt a) 1000 := by
  simp [simulateBeamforming]

/-- C3: for every architecture string (recognised or not), antenna count
`a ≥ 1`, user count `u ≥ 1` and SNR `s` in dB, `simulateBeamforming` returns a
value of at least 1000. -/
theorem simulateBeamforming_ge_floor (beamformingType : String) (a u : ℕ) (s : ℝ)
    (_ha : 1 ≤ a) (_hu : 1 ≤ u) :
    1000 ≤ simulateBeamforming beamformingType (a : ℝ) (u : ℝ) s := by
  unfold simulateBeamforming
  exact le_max_right _ _

/-- The spec's own degenerate input: at 64 antennas, 20 users and -50 dB the
unclamped capacity stays below the floor for every gain factor up to 1.35. -/
theorem degenerate_capacity_le_floor (k : ℝ) (hk0 : 0 ≤ k) (hk : k ≤ 1.35) :
    BANDWIDTH * Real.logb 2 (1 + (10 : ℝ) ^ ((-50 : ℝ) / 10)) * k / 20 / Real.sqrt 64 ≤ 1000 := by
  have hpow : (10 : ℝ) ^ ((-50 : ℝ) / 10) = 1 / 100000 := by
    rw [show ((-50 : ℝ) / 10) = -((5 : ℕ) : ℝ) by norm_num, Real.rpow_neg (by norm_num),
      Real.rpow_natCast]
    norm_num
  have hlog2 : (1 / 2 : ℝ) < Real.log 2 := by
    have := Real.log_two_gt_d9
    linarith
  have hlog : Real.log (1 + 1 / 100000) ≤ 1 / 100000 := by
    have := Real.log_le_sub_one_of_pos (show (0 : ℝ) < 1 + 1 / 100000 by norm_num)
    linarith
  have hlog0 : 0 ≤ Real.log (1 + 1 / 100000 : ℝ) := Real.log_nonneg (by norm_num)
  have hlogb : Real.logb 2 (1 + 1 / 100000) ≤ 2 / 100000 := by
    unfold Real.logb
    rw [div_le_iff₀ (by linarith)]
    nlinarith
  have hlogb0 : 0 ≤ Real.logb 2 (1 + 1 / 100000 : ℝ) :=
    div_nonneg hlog0 (by linarith)
  have hsqrt : (1 : ℝ) ≤ Real.sqrt 64 := by
    rw [Real.one_le_sqrt]
    norm_num
  rw [hpow]
  unfold BANDWIDTH
  rw [div_le_iff₀ (by linarith), div_le_iff₀ (by norm_num)]
  nlinarith [mul_nonneg hlogb0 hk0, mul_nonneg (sub_nonneg.mpr hlogb) hk0,
    mul_nonneg hlogb0 (sub_nonneg.mpr hk)]

/-- C1, refuted as stated: at the spec's degenerate input (64 antennas, 20
users, -50 dB) both architectures are clamped to the floor 1000, so digital is
not strictly greater than analog. -/
theorem simulateBeamforming_digital_eq_analog_at_floor :
    simulateBeamforming "digital" ((64 : ℕ) : ℝ) ((20 : ℕ) : ℝ) (-50) = 1000
      ∧ simulateBeamforming "analog" ((64 : ℕ) : ℝ) ((20 : ℕ) : ℝ) (-50) = 1000
      ∧ ¬ (simulateBeamforming "digital" ((64 : ℕ) : ℝ) ((20 : ℕ) : ℝ) (-50)
            > simulateBeamforming "analog" ((64 : ℕ) : ℝ) ((20 : ℕ) : ℝ) (-50)) := by
  have hd : simulateBeamforming "digital" ((64 : ℕ) : ℝ) ((20 : ℕ) : ℝ) (-50) = 1000 := by
    rw [simulateBeamforming_digital]
    push_cast
    exact max_eq_right (degenerate_capacity_le_floor 1.35 (by norm_num) le_rfl)
  have ha : simulateBeamforming "analog" ((64 : ℕ) : ℝ) ((20 : ℕ) : ℝ) (-50) = 1000 := by
    rw [simulateBeamforming_analog]
    push_cast
    exact max_eq_right (degenerate_capacity_le_floor 1.15 (by norm_num) (by norm_num))
  refine ⟨hd, ha, ?_⟩
  rw [hd, ha]
  exact lt_irrefl _

/-- C1, amended: for antenna count `a ≥ 1`, user count `u ≥ 1` and SNR
`s ≤ 3000` dB (below the overflow of `Math.pow(10, s / 10)`), the digital
capacity is at least the analog one, and it is strictly greater exactly when
the digital capacity is above the floor of 1000. -/
theorem simulateBeamforming_analog_le_digital (a u : ℕ) (s : ℝ) (ha : 1 ≤ a) (hu : 1 ≤ u)
    (_hs : s ≤ 3000) :
    simulateBeamforming "analog" (a : ℝ) (u : ℝ) s
        ≤ simulateBeamforming "digital" (a : ℝ) (u : ℝ) s
      ∧ (simulateBeamforming "digital" (a : ℝ) (u : ℝ) s
            > simulateBeamforming "analog" (a : ℝ) (u : ℝ) s
          ↔ 1000 < simulateBeamforming "digital" (a : ℝ) (u : ℝ) s) := by
  rw [simulateBeamforming_analog, simulateBeamforming_digital]
  have hX := baseCapacity_pos s
  have hu0 : (0 : ℝ) < (u : ℝ) := by exact_mod_cast hu
  have ha0 : (0 : ℝ) < (a : ℝ) := by exact_mod_cast ha
  have hs : 0 < Real.sqrt (a : ℝ) := Real.sqrt_pos.mpr ha0
  have hlt : BANDWIDTH * Real.logb 2 (1 + (10 : ℝ) ^ (s / 10)) * 1.15 / u / Real.sqrt a
      < BANDWIDTH * Real.logb 2 (1 + (10 : ℝ) ^ (s / 10)) * 1.35 / u / Real.sqrt a := by
    apply div_lt_div_of_pos_right _ hs
    apply div_lt_div_of_pos_right _ hu0
    nlinarith
  refine ⟨max_le_max hlt.le le_rfl, ?_, ?_⟩
  · intro h
    exact lt_of_le_of_lt (le_max_right _ _) h
  · intro h
    have hD : 1000 < BANDWIDTH * Real.logb 2 (1 + (10 : ℝ) ^ (s / 10)) * 1.35 / u / Real.sqrt a := by
      rcases lt_max_iff.mp h with h1 | h1
      · exact h1
      · exact absurd h1 (lt_irrefl _)
    exact lt_of_lt_of_le (max_lt hlt hD) (le_max_left _ _)

/-- Witness for C1 (amended) at 8 antennas, 10 users, 10 dB. -/
theorem simulateBeamforming_analog_le_digital_witness :
    simulateBeamforming "analog" ((8 : ℕ) : ℝ) ((10 : ℕ) : ℝ) 10
        ≤ simulateBeamforming "digital" ((8 : ℕ) : ℝ) ((10 : ℕ) : ℝ) 10
      ∧ (simulateBeamforming "digital" ((8 : ℕ) : ℝ) ((10 : ℕ) : ℝ) 10
            > simulateBeamforming "analog" ((8 : ℕ) : ℝ) ((10 : ℕ) : ℝ) 10
          ↔ 1000 < simulateBeamforming "digital" ((8 : ℕ) : ℝ) ((10 : ℕ) : ℝ) 10) :=
  simulateBeamforming_analog_le_digital 8 10 10 (by decide) (by decide) (by norm_num)

/-- Witness for C3 at the spec's degenerate input. -/
theorem simulateBeamforming_ge_floor_witness :
    1000 ≤ simulateBeamforming "analog" ((64 : ℕ) : ℝ) ((20 : ℕ) : ℝ) (-50) :=
  simulateBeamforming_ge_floor "analog" 64 20 (-50) (by decide) (by decide)

/-! ### Massive-MIMO performance -/

/-- C2: at 8 antennas and 2 users the code returns `log2 (1 + 25 * 4)`, that is
`log2 101`, because the dB figure 25 is used without conversion; the value the
claim states, `log2 (1 + 10^(25/10) * 8 / 2)`, is a different (larger) number. -/
theorem calculatePerformance_uses_dB_as_linear :
    (calculatePerformance ((8 : ℕ) : ℝ) ((2 : ℕ) : ℝ)).spectralEfficiency = Real.logb 2 101
      ∧ (calculatePerformance ((8 : ℕ) : ℝ) ((2 : ℕ) : ℝ)).spectralEfficiency
          < Real.logb 2 (1 + (10 : ℝ) ^ ((25 : ℝ) / 10) * ((8 : ℕ) : ℝ) / ((2 : ℕ) : ℝ)) := by
  have hval : (calculatePerformance ((8 : ℕ) : ℝ) ((2 : ℕ) : ℝ)).spectralEfficiency
      = Real.logb 2 101 := by
    simp only [calculatePerformance]
    norm_num
  have hpow : (100 : ℝ) < (10 : ℝ) ^ ((25 : ℝ) / 10) := by
    have h2 : (10 : ℝ) ^ (((2 : ℕ) : ℝ)) = 100 := by
      rw [Real.rpow_natCast]
      norm_num
    rw [← h2]
    exact Real.rpow_lt_rpow_of_exponent_lt (by norm_num) (by norm_num)
  refine ⟨hval, ?_⟩
  rw [hval]
  apply Real.logb_lt_logb (by norm_num) (by norm_num)
  push_cast
  linarith

/-! ### Q-function at the origin -/

/-- Exact value of `qFunction 0` with the coefficients of the source. -/
theorem qFunction_zero_eq : qFunction 0 = 0.4999999995 := by
  simp only [qFunction, erf]
  norm_num

/-- C8: `qFunction 0` is within `10^-6` of `0.5`. -/
theorem qFunction_zero_approx : |qFunction 0 - 0.5| ≤ 1 / 1000000 := by
  rw [qFunction_zero_eq, abs_le]
  constructor <;> norm_num

/-! ### Arithmetic of `JsNumber` -/

@[simp]
theorem JsNumber.fin_add_fin (x y : ℝ) :
    JsNumber.fin x + JsNumber.fin y = JsNumber.fin (x + y) := rfl

@[simp]
theorem JsNumber.fin_sub_fin (x y : ℝ) :
    JsNumber.fin x - JsNumber.fin y = JsNumber.fin (x - y) := rfl

@[simp]
theorem JsNumber.fin_mul_fin (x y : ℝ) :
    JsNumber.fin x * JsNumber.fin y = JsNumber.fin (x * y) := rfl

@[simp]
theorem JsNumber.nonFinite_add (b : JsNumber) : JsNumber.nonFinite + b = JsNumber.nonFinite := by
  cases b <;> rfl

@[simp]
theorem JsNumber.add_nonFinite (a : JsNumber) : a + JsNumber.nonFinite = JsNumber.nonFinite := by
  cases a <;> rfl

@[simp]
theorem JsNumber.nonFinite_sub (b : JsNumber) : JsNumber.nonFinite - b = JsNumber.nonFinite := by
  cases b <;> rfl

@[simp]
theorem JsNumber.sub_nonFinite (a : JsNumber) : a - JsNumber.nonFinite = JsNumber.nonFinite := by
  cases a <;> rfl

@[simp]
theorem JsNumber.nonFinite_mul (b : JsNumber) : JsNumber.nonFinite * b = JsNumber.nonFinite := by
  cases b <;> rfl

@[simp]
theorem JsNumber.mul_nonFinite (a : JsNumber) : a * JsNumber.nonFinite = JsNumber.nonFinite := by
  cases a <;> rfl

theorem JsNumber.log10_fin_of_pos {v : ℝ} (h : 0 < v) :
    JsNumber.log10 (JsNumber.fin v) = JsNumber.fin (Real.logb 10 v) := by
  simp [JsNumber.log10, h]

theorem JsNumber.log10_fin_of_nonpos {v : ℝ} (h : v ≤ 0) :
    JsNumber.log10 (JsNumber.fin v) = JsNumber.nonFinite := by
  simp [JsNumber.log10, not_lt.mpr h]

@[simp]
theorem JsNumber.pow_two_nonFinite : JsNumber.pow JsNumber.nonFinite 2 = JsNumber.nonFinite := by
  simp [JsNumber.pow]

/-! ### Path loss -/

/-- C4, refuted as stated: with base-station height 0 (frequency 1900,
mobile height 1.5, distance 1) the urban computation returns a non-finite
Number and signals no error. -/
theorem okunmuraHataModel_zero_height_no_error :
    okunmuraHataModel 1900 0 1.5 1 = Except.ok JsNumber.nonFinite
      ∧ okunmuraHataModel 1900 0 1.5 1 ≠ Except.error ModelError.invalidParameter := by
  have h : okunmuraHataModel 1900 0 1.5 1 = Except.ok JsNumber.nonFinite := by
    simp [okunmuraHataModel, JsNumber.log10_fin_of_nonpos (le_refl (0 : ℝ))]
  refine ⟨h, ?_⟩
  rw [h]
  simp

/-- C4, amended: whenever the base-station height or the mobile height is
`≤ 0`, for any frequency `> 0` and distance `> 0`, the urban path-loss
computation signals no error and returns a non-finite Number (`NaN` or an
infinity). -/
theorem okunmuraHataModel_nonpos_height (frequency bsHeight mobileHeight distance : ℝ)
    (_hf : 0 < frequency) (_hd : 0 < distance) (h : bsHeight ≤ 0 ∨ mobileHeight ≤ 0) :
    okunmuraHataModel frequency bsHeight mobileHeight distance = Except.ok JsNumber.nonFinite := by
  rcases h with h | h
  · simp [okunmuraHataModel, JsNumber.log10_fin_of_nonpos h]
  · have h2 : (11.75 : ℝ) * mobileHeight ≤ 0 := by nlinarith
    simp [okunmuraHataModel, JsNumber.log10_fin_of_nonpos h2]

/-- Witness for C4 (amended): mobile height -1.5. -/
theorem okunmuraHataModel_nonpos_height_witness :
    okunmuraHataModel 1900 30 (-1.5) 1 = Except.ok JsNumber.nonFinite :=
  okunmuraHataModel_nonpos_height 1900 30 (-1.5) 1 (by norm_num) (by norm_num)
    (Or.inr (by norm_num))

/-- Value of `indoorModel` on its domain. -/
theorem indoorModel_of_pos (f d : ℝ) (hf : 0 < f) (hd : 0 < d) :
    indoorModel f d
      = Except.ok (JsNumber.fin (40 * Real.logb 10 d + 20 * Real.logb 10 f - 147.55)) := by
  simp [indoorModel, JsNumber.log10_fin_of_pos hf, JsNumber.log10_fin_of_pos hd]

/-- C10, amended: for a fixed frequency `1 ≤ f ≤ 10^6` and distances
`0 < d1`, `d1 + 10^-3 ≤ d2 ≤ 10^6` (at least a thousandth apart),
`indoorModel` returns finite losses `l1` at `d1` and `l2` at `d2` with
`l1 < l2`. -/
theorem indoorModel_strictMono_distance (f d1 d2 : ℝ) (hf : 1 ≤ f) (_hf2 : f ≤ 10 ^ 6)
    (hd1 : 0 < d1) (hgap : d1 + 1 / 1000 ≤ d2) (_hd2 : d2 ≤ 10 ^ 6) :
    ∃ l1 l2 : ℝ, indoorModel f d1 = Except.ok (JsNumber.fin l1)
      ∧ indoorModel f d2 = Except.ok (JsNumber.fin l2) ∧ l1 < l2 := by
  have hf : 0 < f := by linarith
  have hd : d1 < d2 := by linarith
  refine ⟨_, _, indoorModel_of_pos f d1 hf hd1, indoorModel_of_pos f d2 hf (hd1.trans hd), ?_⟩
  have hlog : Real.logb 10 d1 < Real.logb 10 d2 :=
    Real.logb_lt_logb (by norm_num) hd1 hd
  linarith

/-- Witness for C10 (amended): frequency 100, distances 1 and 2. -/
theorem indoorModel_strictMono_distance_witness :
    ∃ l1 l2 : ℝ, indoorModel 100 1 = Except.ok (JsNumber.fin l1)
      ∧ indoorModel 100 2 = Except.ok (JsNumber.fin l2) ∧ l1 < l2 :=
  indoorModel_strictMono_distance 100 1 2 (by norm_num) (by norm_num) (by norm_num)
    (by norm_num) (by norm_num)

/-! ### Network slicing -/

/-- C5, refuted as stated: for the unknown service type "VoIP" at load 1 both
functions return the Number 0 and signal no error. -/
theorem simulate_unknown_service_no_error :
    simulateThroughput 1 "VoIP" = Except.ok 0
      ∧ simulateLatency 1 "VoIP" = Except.ok 0
      ∧ simulateThroughput 1 "VoIP" ≠ Except.error ModelError.invalidParameter
      ∧ simulateLatency 1 "VoIP" ≠ Except.error ModelError.invalidParameter := by
  have h1 : simulateThroughput 1 "VoIP" = Except.ok 0 := by
    simp [simulateThroughput, EMBB, URLLC, MMTC]
  have h2 : simulateLatency 1 "VoIP" = Except.ok 0 := by
    simp [simulateLatency, EMBB, URLLC, MMTC]
  refine ⟨h1, h2, ?_, ?_⟩
  · rw [h1]; simp
  · rw [h2]; simp

/-- C5, amended: for every service type other than "eMBB", "URLLC" and "mMTC"
and every load `≥ 0`, `simulateThroughput` and `simulateLatency` return the
Number 0. -/
theorem simulate_unknown_service_zero (load : ℝ) (service : String) (_hload : 0 ≤ load)
    (h1 : service ≠ "eMBB") (h2 : service ≠ "URLLC") (h3 : service ≠ "mMTC") :
    simulateThroughput load service = Except.ok 0
      ∧ simulateLatency load service = Except.ok 0 := by
  simp [simulateThroughput, simulateLatency, EMBB, URLLC, MMTC, h1, h2, h3]

/-- Witness for C5 (amended): service type "VoIP" at load 3. -/
theorem simulate_unknown_service_zero_witness :
    simulateThroughput 3 "VoIP" = Except.ok 0 ∧ simulateLatency 3 "VoIP" = Except.ok 0 :=
  simulate_unknown_service_zero 3 "VoIP" (by norm_num) (by decide) (by decide) (by decide)

/-- The eMBB throughput is exactly 1000 from load `10^10` on. -/
theorem simulateThroughput_embb_saturated (load : ℝ) (h : (10 : ℝ) ^ (10 : ℕ) ≤ load) :
    simulateThroughput load EMBB = Except.ok 1000 := by
  have hpos : (0 : ℝ) < load + 1 := by
    have : (0 : ℝ) < (10 : ℝ) ^ (10 : ℕ) := by norm_num
    linarith
  have hlog : (10 : ℝ) ≤ Real.logb 10 (load + 1) := by
    rw [Real.le_logb_iff_rpow_le (by norm_num) hpos]
    have : (10 : ℝ) ^ (10 : ℝ) = (10 : ℝ) ^ (10 : ℕ) := by
      rw [← Real.rpow_natCast]
      norm_num
    rw [this]
    linarith
  simp only [simulateThroughput, if_true]
  congr 1
  exact min_eq_left (by linarith)

/-- The URLLC throughput is exactly 1000 from load `10^10` on. -/
theorem simulateThroughput_urllc_saturated (load : ℝ) (h : (10 : ℝ) ^ (10 : ℕ) ≤ load) :
    simulateThroughput load URLLC = Except.ok 1000 := by
  have h400 : (400 : ℝ) ≤ load := le_trans (by norm_num) h
  have h1 : (1 : ℝ) ≤ load := by linarith
  have hsqrt : (20 : ℝ) ≤ Real.sqrt load := by
    rw [Real.le_sqrt' (by norm_num)]
    norm_num
    linarith
  have hmono : load ^ ((1 : ℝ) / 2) ≤ load ^ (0.7 : ℝ) :=
    Real.rpow_le_rpow_of_exponent_le h1 (by norm_num)
  rw [← Real.sqrt_eq_rpow] at hmono
  have hne : URLLC ≠ EMBB := by decide
  simp only [simulateThroughput, hne, if_false, if_true]
  congr 1
  exact min_eq_left (by linarith)

/-- C9: for eMBB and for URLLC there is a load `L` such that for every load
`≥ L` the throughput is exactly 1000. -/
theorem simulateThroughput_saturates :
    (∃ L : ℝ, 0 ≤ L ∧ ∀ load : ℝ, L ≤ load → simulateThroughput load EMBB = Except.ok 1000)
      ∧ (∃ L : ℝ, 0 ≤ L
          ∧ ∀ load : ℝ, L ≤ load → simulateThroughput load URLLC = Except.ok 1000) :=
  ⟨⟨(10 : ℝ) ^ (10 : ℕ), by norm_num, simulateThroughput_embb_saturated⟩,
    ⟨(10 : ℝ) ^ (10 : ℕ), by norm_num, simulateThroughput_urllc_saturated⟩⟩

/-! ### The error-function approximation -/

/-- Derivative of the polynomial factor. -/
theorem erfPoly_hasDerivAt (t : ℝ) :
    HasDerivAt erfPoly
      (0.254829592 + 2 * -0.284496736 * t + 3 * 1.421413741 * t ^ 2
        + 4 * -1.453152027 * t ^ 3 + 5 * 1.061405429 * t ^ 4) t := by
  have h1 : HasDerivAt (fun x : ℝ => x) 1 t := hasDerivAt_id t
  have h2 := (((((((h1.const_mul (1.061405429 : ℝ)).add_const (-1.453152027 : ℝ)).mul h1).add_const
    (1.421413741 : ℝ)).mul h1).add_const (-0.284496736 : ℝ)).mul h1).add_const (0.254829592 : ℝ)
  have h3 := h2.mul h1
  have hfun : erfPoly = fun y : ℝ =>
      ((((1.061405429 * y + -1.453152027) * y + 1.421413741) * y + -0.284496736) * y
        + 0.254829592) * y := rfl
  rw [hfun]
  convert h3 using 1
  ring

/-- The derivative of the polynomial factor is positive everywhere. -/
theorem erfPoly_deriv_pos (t : ℝ) :
    0 < 0.254829592 + 2 * -0.284496736 * t + 3 * 1.421413741 * t ^ 2
        + 4 * -1.453152027 * t ^ 3 + 5 * 1.061405429 * t ^ 4 := by
  nlinarith [mul_nonneg (sq_nonneg t) (sq_nonneg (t - 2 * 1.453152027 / (5 * 1.061405429))),
    sq_nonneg (t - 0.1), sq_nonneg (t - 0.11), sq_nonneg t]

/-- The polynomial factor is strictly increasing. -/
theorem erfPoly_strictMono : StrictMono erfPoly := by
  apply strictMono_of_deriv_pos
  intro t
  rw [(erfPoly_hasDerivAt t).deriv]
  exact erfPoly_deriv_pos t

/-- The polynomial factor is positive at positive arguments. -/
theorem erfPoly_pos {t : ℝ} (ht : 0 < t) : 0 < erfPoly t := by
  have h0 : erfPoly 0 = 0 := by simp [erfPoly]
  have := erfPoly_strictMono ht
  rwa [h0] at this

/-- On non-negative arguments `erf` is `1 - erfPoly t * exp (-x * x)` with
`t = 1 / (1 + p * x)`. -/
theorem erf_of_nonneg {x : ℝ} (hx : 0 ≤ x) :
    erf x = 1 - erfPoly (1 / (1 + 0.3275911 * x)) * Real.exp (-x * x) := by
  have hge : x ≥ 0 := hx
  simp only [erf, erfPoly, if_pos hge, abs_of_nonneg hx]
  norm_num

/-- The approximated `erf` is strictly increasing on the non-negative reals. -/
theorem erf_lt_erf {x y : ℝ} (hx : 0 ≤ x) (hxy : x < y) : erf x < erf y := by
  have hy : 0 ≤ y := hx.trans hxy.le
  rw [erf_of_nonneg hx, erf_of_nonneg hy]
  have hdx : (0 : ℝ) < 1 + 0.3275911 * x := by nlinarith
  have hdy : (0 : ℝ) < 1 + 0.3275911 * y := by nlinarith
  have ht : 1 / (1 + 0.3275911 * y) < 1 / (1 + 0.3275911 * x) :=
    one_div_lt_one_div_of_lt hdx (by nlinarith)
  have hty : 0 < 1 / (1 + 0.3275911 * y) := one_div_pos.mpr hdy
  have hP : erfPoly (1 / (1 + 0.3275911 * y)) < erfPoly (1 / (1 + 0.3275911 * x)) :=
    erfPoly_strictMono ht
  have hPy : 0 < erfPoly (1 / (1 + 0.3275911 * y)) := erfPoly_pos hty
  have hexp : Real.exp (-y * y) < Real.exp (-x * x) := by
    apply Real.exp_lt_exp.mpr
    nlinarith
  have hexp0 : 0 < Real.exp (-y * y) := Real.exp_pos _
  have : erfPoly (1 / (1 + 0.3275911 * y)) * Real.exp (-y * y)
      < erfPoly (1 / (1 + 0.3275911 * x)) * Real.exp (-x * x) :=
    mul_lt_mul hP hexp.le hexp0 (hPy.trans hP).le
  linarith

/-- A larger non-negative argument gives a smaller `qFunction`. -/
theorem qFunction_lt_of_lt {x y : ℝ} (hx : 0 ≤ x) (hxy : x < y) :
    qFunction y < qFunction x := by
  have hs : (0 : ℝ) < Real.sqrt 2 := Real.sqrt_pos.mpr (by norm_num)
  have h := erf_lt_erf (div_nonneg hx hs.le) (div_lt_div_of_pos_right hxy hs)
  unfold qFunction
  linarith

/-- C6, amended: `qFunction` is strictly decreasing on `0 ≤ x ≤ 6` for
arguments at least a thousandth apart: for all reals `0 ≤ x`,
`x + 10^-3 ≤ y ≤ 6`, `qFunction y < qFunction x`, where `qFunction` is built on
the five-coefficient approximation `erf` of the source. -/
theorem qFunction_strictAnti_bounded (x y : ℝ) (hx : 0 ≤ x) (hgap : x + 1 / 1000 ≤ y)
    (_hy : y ≤ 6) :
    qFunction y < qFunction x :=
  qFunction_lt_of_lt hx (by linarith)

/-- Witness for C6 (amended) at `x = 0`, `y = 1`. -/
theorem qFunction_strictAnti_bounded_witness : qFunction 1 < qFunction 0 :=
  qFunction_strictAnti_bounded 0 1 le_rfl (by norm_num) (by norm_num)

/-- C7, amended: for each of the modulations BPSK, QPSK, 16-QAM and 64-QAM and
for all linear SNRs `0 < s1`, `s1 + 10^-3 ≤ s2 ≤ 20` (at least a thousandth
apart, up to 13 dB), `calculateBER` returns numbers `b1` at `s1` and `b2` at
`s2` with `b2 < b1`. -/
theorem calculateBER_strictAnti_snr (m : String) (s1 s2 : ℝ)
    (hm : m = "BPSK" ∨ m = "QPSK" ∨ m = "16-QAM" ∨ m = "64-QAM")
    (hs1 : 0 < s1) (hgap : s1 + 1 / 1000 ≤ s2) (_hs2 : s2 ≤ 20) :
    ∃ b1 b2 : ℝ, calculateBER m s1 = some b1 ∧ calculateBER m s2 = some b2 ∧ b2 < b1 := by
  have hs : s1 < s2 := by linarith
  have key : ∀ c : ℝ, 0 < c →
      qFunction (Real.sqrt (c * s2)) < qFunction (Real.sqrt (c * s1)) := by
    intro c hc
    exact qFunction_lt_of_lt (Real.sqrt_nonneg _)
      (Real.sqrt_lt_sqrt (by positivity) (by nlinarith))
  rcases hm with rfl | rfl | rfl | rfl
  · exact ⟨_, _, rfl, rfl, key 2 (by norm_num)⟩
  · exact ⟨_, _, rfl, rfl, key 2 (by norm_num)⟩
  · refine ⟨_, _, rfl, rfl, ?_⟩
    have := key (4 / 5) (by norm_num)
    linarith
  · refine ⟨_, _, rfl, rfl, ?_⟩
    have := key (6 / 7) (by norm_num)
    linarith

/-- Witness for C7 (amended): 16-QAM at linear SNR 1 and 2. -/
theorem calculateBER_strictAnti_snr_witness :
    ∃ b1 b2 : ℝ, calculateBER "16-QAM" 1 = some b1 ∧ calculateBER "16-QAM" 2 = some b2
      ∧ b2 < b1 :=
  calculateBER_strictAnti_snr "16-QAM" 1 2 (by simp) (by norm_num) (by norm_num)
    (by norm_num)

/-! ### Massive-MIMO: monotonicity in the antenna count -/

/-- C11, amended: for every user count `1 ≤ u ≤ 10^6` and antenna counts
`1 ≤ a1 < a2 ≤ 10^6`, the spectral efficiency of `calculatePerformance` at `a1`
is strictly below the one at `a2`. -/
theorem calculatePerformance_spectralEfficiency_strictMono (u a1 a2 : ℕ) (hu : 1 ≤ u)
    (_hu2 : u ≤ 10 ^ 6) (_h1 : 1 ≤ a1) (h12 : a1 < a2) (_h2 : a2 ≤ 10 ^ 6) :
    (calculatePerformance (a1 : ℝ) (u : ℝ)).spectralEfficiency
      < (calculatePerformance (a2 : ℝ) (u : ℝ)).spectralEfficiency := by
  have hu0 : (0 : ℝ) < (u : ℝ) := by exact_mod_cast hu
  have ha : (a1 : ℝ) < (a2 : ℝ) := by exact_mod_cast h12
  have ha1 : (0 : ℝ) ≤ (a1 : ℝ) := Nat.cast_nonneg a1
  have hq : (a1 : ℝ) / u < (a2 : ℝ) / u := div_lt_div_of_pos_right ha hu0
  have hq0 : (0 : ℝ) ≤ (a1 : ℝ) / u := div_nonneg ha1 hu0.le
  simp only [calculatePerformance]
  exact Real.logb_lt_logb (by norm_num) (by linarith) (by linarith)

/-- Witness for C11 (amended): 8 against 64 antennas with 2 users. -/
theorem calculatePerformance_spectralEfficiency_strictMono_witness :
    (calculatePerformance ((8 : ℕ) : ℝ) ((2 : ℕ) : ℝ)).spectralEfficiency
      < (calculatePerformance ((64 : ℕ) : ℝ) ((2 : ℕ) : ℝ)).spectralEfficiency :=
  calculatePerformance_spectralEfficiency_strictMono 2 8 64 (by decide) (by norm_num)
    (by decide) (by decide) (by norm_num)

/-! ### Bit error rate: sentinel and range -/

/-- C12: `calculateBER` returns the `null` sentinel exactly when the modulation
is none of "BPSK", "QPSK", "16-QAM", "64-QAM"; for those four it returns a
number for every `snr > 0`. -/
theorem calculateBER_null_iff (m : String) (snr : ℝ) :
    (calculateBER m snr = none
        ↔ ¬ (m = "BPSK" ∨ m = "QPSK" ∨ m = "16-QAM" ∨ m = "64-QAM"))
      ∧ ((m = "BPSK" ∨ m = "QPSK" ∨ m = "16-QAM" ∨ m = "64-QAM") → 0 < snr →
          ∃ b : ℝ, calculateBER m snr = some b) := by
  constructor
  · unfold calculateBER
    split <;> simp_all
  · intro hm _
    rcases hm with rfl | rfl | rfl | rfl <;> exact ⟨_, rfl⟩

/-- Witness for C12: the unknown modulation "8-PSK" gives the sentinel, and
"QPSK" gives a number at linear SNR 10. -/
theorem calculateBER_null_iff_witness :
    calculateBER "8-PSK" 10 = none ∧ ∃ b : ℝ, calculateBER "QPSK" 10 = some b :=
  ⟨(calculateBER_null_iff "8-PSK" 10).1.mpr (by decide),
    (calculateBER_null_iff "QPSK" 10).2 (by simp) (by norm_num)⟩

/-- The approximated `qFunction` is positive on `x ≥ 0`. -/
theorem qFunction_pos_of_nonneg {x : ℝ} (hx : 0 ≤ x) : 0 < qFunction x := by
  have hs : (0 : ℝ) < Real.sqrt 2 := Real.sqrt_pos.mpr (by norm_num)
  have hz : 0 ≤ x / Real.sqrt 2 := div_nonneg hx hs.le
  have hd : (0 : ℝ) < 1 + 0.3275911 * (x / Real.sqrt 2) := by nlinarith
  have hP := erfPoly_pos (one_div_pos.mpr hd)
  have hE := Real.exp_pos (-(x / Real.sqrt 2) * (x / Real.sqrt 2))
  have := mul_pos hP hE
  unfold qFunction
  rw [erf_of_nonneg hz]
  linarith

/-- The approximated `qFunction` is below `1/2` on `x ≥ 0`. -/
theorem qFunction_lt_half_of_nonneg {x : ℝ} (hx : 0 ≤ x) : qFunction x < 1 / 2 := by
  have h0 : qFunction 0 < 1 / 2 := by
    rw [qFunction_zero_eq]
    norm_num
  rcases hx.eq_or_lt with rfl | hpos
  · exact h0
  · exact (qFunction_lt_of_lt le_rfl hpos).trans h0

/-- C14, amended: for each of the modulations BPSK, QPSK, 16-QAM and 64-QAM and
every linear SNR `0 ≤ s ≤ 30`, `calculateBER` returns a number strictly between
0 and 1/2; and the approximated `qFunction x` lies strictly between 0 and 1/2
for every `0 ≤ x ≤ 7.5`. -/
theorem calculateBER_mem_open_interval (m : String) (s : ℝ)
    (hm : m = "BPSK" ∨ m = "QPSK" ∨ m = "16-QAM" ∨ m = "64-QAM") (_hs : 0 ≤ s)
    (_hs2 : s ≤ 30) :
    (∃ b : ℝ, calculateBER m s = some b ∧ 0 < b ∧ b < 1 / 2)
      ∧ ∀ x : ℝ, 0 ≤ x → x ≤ 7.5 → 0 < qFunction x ∧ qFunction x < 1 / 2 := by
  refine ⟨?_, fun x hx _ => ⟨qFunction_pos_of_nonneg hx, qFunction_lt_half_of_nonneg hx⟩⟩
  have key : ∀ c : ℝ, 0 < qFunction (Real.sqrt (c * s))
      ∧ qFunction (Real.sqrt (c * s)) < 1 / 2 := fun c =>
    ⟨qFunction_pos_of_nonneg (Real.sqrt_nonneg _),
      qFunction_lt_half_of_nonneg (Real.sqrt_nonneg _)⟩
  rcases hm with rfl | rfl | rfl | rfl
  · exact ⟨_, rfl, (key 2).1, (key 2).2⟩
  · exact ⟨_, rfl, (key 2).1, (key 2).2⟩
  · refine ⟨_, rfl, ?_, ?_⟩
    · have := (key (4 / 5)).1
      positivity
    · have := (key (4 / 5)).2
      have := (key (4 / 5)).1
      linarith
  · refine ⟨_, rfl, ?_, ?_⟩
    · have := (key (6 / 7)).1
      positivity
    · have := (key (6 / 7)).2
      have := (key (6 / 7)).1
      linarith

/-- Witness for C14 (amended): 64-QAM at linear SNR 0. -/
theorem calculateBER_mem_open_interval_witness :
    (∃ b : ℝ, calculateBER "64-QAM" 0 = some b ∧ 0 < b ∧ b < 1 / 2)
      ∧ ∀ x : ℝ, 0 ≤ x → x ≤ 7.5 → 0 < qFunction x ∧ qFunction x < 1 / 2 :=
  calculateBER_mem_open_interval "64-QAM" 0 (by simp) le_rfl (by norm_num)

/-! ### Beamforming: the antenna sweep -/

/-- C13: for every architecture, user count `u ≥ 1` and SNR `s`,
`simulateBeamforming` is non-increasing in the antenna count (for all
`1 ≤ a1 ≤ a2` the value at `a2` is at most the value at `a1`), and hence the
antenna sweep `capacityResults` over 1..N is a non-increasing series. -/
theorem simulateBeamforming_antitone_antennas (beamformingType : String) (u : ℕ) (s : ℝ)
    (hu : 1 ≤ u) :
    (∀ a1 a2 : ℕ, 1 ≤ a1 → a1 ≤ a2 →
        simulateBeamforming beamformingType (a2 : ℝ) (u : ℝ) s
          ≤ simulateBeamforming beamformingType (a1 : ℝ) (u : ℝ) s)
      ∧ ∀ N : ℕ, List.Pairwise (fun x y => y ≤ x) (capacityResults beamformingType N (u : ℝ) s) := by
  have hX := baseCapacity_pos s
  have hu0 : (0 : ℝ) < (u : ℝ) := by exact_mod_cast hu
  have key : ∀ a1 a2 : ℕ, 1 ≤ a1 → a1 ≤ a2 →
      simulateBeamforming beamformingType (a2 : ℝ) (u : ℝ) s
        ≤ simulateBeamforming beamformingType (a1 : ℝ) (u : ℝ) s := by
    intro a1 a2 h1 h12
    have ha1 : (0 : ℝ) < (a1 : ℝ) := by exact_mod_cast h1
    have hle : (a1 : ℝ) ≤ (a2 : ℝ) := by exact_mod_cast h12
    have hs1 : 0 < Real.sqrt (a1 : ℝ) := Real.sqrt_pos.mpr ha1
    have hs12 : Real.sqrt (a1 : ℝ) ≤ Real.sqrt (a2 : ℝ) := Real.sqrt_le_sqrt hle
    have hdiv : ∀ c : ℝ, 0 ≤ c → c / u / Real.sqrt a2 ≤ c / u / Real.sqrt a1 := fun c hc =>
      div_le_div_of_nonneg_left (div_nonneg hc hu0.le) hs1 hs12
    simp only [simulateBeamforming]
    split_ifs
    · exact max_le_max (hdiv _ (by nlinarith)) le_rfl
    · exact max_le_max (hdiv _ (by nlinarith)) le_rfl
    · exact max_le_max (hdiv _ (by nlinarith)) le_rfl
    · exact max_le_max (hdiv _ hX.le) le_rfl
  refine ⟨key, fun N => ?_⟩
  unfold capacityResults antennasRange
  rw [List.map_map, List.pairwise_map]
  refine (List.pairwise_lt_range N).imp ?_
  intro i j hij
  simp only [Function.comp_apply]
  exact key (i + 1) (j + 1) (Nat.succ_le_succ (Nat.zero_le i)) (Nat.succ_le_succ hij.le)

/-- Witness for C13: analog architecture, 10 users, 10 dB. -/
theorem simulateBeamforming_antitone_antennas_witness :
    simulateBeamforming "analog" ((8 : ℕ) : ℝ) ((10 : ℕ) : ℝ) 10
        ≤ simulateBeamforming "analog" ((1 : ℕ) : ℝ) ((10 : ℕ) : ℝ) 10
      ∧ List.Pairwise (fun x y => y ≤ x) (capacityResults "analog" 8 ((10 : ℕ) : ℝ) 10) :=
  ⟨(simulateBeamforming_antitone_antennas "analog" 10 10 (by decide)).1 1 8 (by decide)
      (by decide),
    (simulateBeamforming_antitone_antennas "analog" 10 10 (by decide)).2 8⟩

/-! ### Path loss: dispatch of the sweep -/

/-- C15: in the path-loss sweep every environment tag other than "urban"
(recognised or not) is dispatched to the indoor model: each loss is
`indoorModel frequency d` and does not depend on `bsHeight` or `mobileHeight`;
the tag "urban" yields `okunmuraHataModel frequency bsHeight mobileHeight d`. -/
theorem losses_dispatch (environment : String) (frequency bsHeight mobileHeight : ℝ) :
    (environment ≠ "urban" →
        losses environment frequency bsHeight mobileHeight
            = distances.map (indoorModel frequency)
          ∧ (∀ d : ℝ, lossAt environment frequency bsHeight mobileHeight d
              = indoorModel frequency d)
          ∧ ∀ bsHeight2 mobileHeight2 : ℝ,
              losses environment frequency bsHeight2 mobileHeight2
                = losses environment frequency bsHeight mobileHeight)
      ∧ (environment = "urban" →
          losses environment frequency bsHeight mobileHeight
              = distances.map (okunmuraHataModel frequency bsHeight mobileHeight)
            ∧ ∀ d : ℝ, lossAt environment frequency bsHeight mobileHeight d
                = okunmuraHataModel frequency bsHeight mobileHeight d) := by
  constructor
  · intro h
    have hl : ∀ bs mh : ℝ, lossAt environment frequency bs mh = indoorModel frequency := by
      intro bs mh
      funext d
      simp [lossAt, OKUMURA_HATA, h]
    refine ⟨?_, fun d => congrFun (hl bsHeight mobileHeight) d, fun bs2 mh2 => ?_⟩
    · simp only [losses, hl]
    · simp only [losses, hl]
  · intro h
    have hl : lossAt environment frequency bsHeight mobileHeight
        = okunmuraHataModel frequency bsHeight mobileHeight := by
      funext d
      simp [lossAt, OKUMURA_HATA, h]
    exact ⟨by simp only [losses, hl], fun d => congrFun hl d⟩

/-- Witness for C15: the unrecognised tag "rural" and the tag "indoor" give the
indoor losses whatever the heights; the tag "urban" gives the urban ones. -/
theorem losses_dispatch_witness :
    losses "rural" 100 30 1.5 = distances.map (indoorModel 100)
      ∧ losses "indoor" 100 0 (-7) = losses "indoor" 100 30 1.5
      ∧ losses "urban" 100 30 1.5 = distances.map (okunmuraHataModel 100 30 1.5) :=
  ⟨((losses_dispatch "rural" 100 30 1.5).1 (by decide)).1,
    ((losses_dispatch "indoor" 100 30 1.5).1 (by decide)).2.2 0 (-7),
    ((losses_dispatch "urban" 100 30 1.5).2 rfl).1⟩

/-! ### Double-precision arithmetic: rounding -/

/-- Rounding to the nearest integer moves a real by at most 1/2. -/
theorem Binary64.roundHalfEven_sub_abs_le (y : ℝ) : |(Binary64.roundHalfEven y : ℝ) - y| ≤ 1 / 2 := by
  have h1 := Int.floor_le y
  have h2 := Int.lt_floor_add_one y
  unfold Binary64.roundHalfEven
  split_ifs with ha hb hc
  · rw [abs_le]; constructor <;> linarith
  · push_cast; rw [abs_le]; constructor <;> linarith
  · rw [abs_le]; constructor <;> linarith
  · push_cast; rw [abs_le]; constructor <;> linarith

/-- A real closer than 1/2 to the integer `m` rounds to `m`. -/
theorem Binary64.roundHalfEven_eq_of_near (y : ℝ) (m : ℤ) (h : |y - m| < 1 / 2) :
    Binary64.roundHalfEven y = m := by
  rw [abs_lt] at h
  obtain ⟨h1, h2⟩ := h
  rcases le_or_lt (m : ℝ) y with hm | hm
  · have hf : ⌊y⌋ = m := by
      rw [Int.floor_eq_iff]
      constructor <;> linarith
    unfold Binary64.roundHalfEven
    rw [hf, if_pos (by linarith)]
  · have hf : ⌊y⌋ = m - 1 := by
      rw [Int.floor_eq_iff]
      push_cast
      constructor <;> linarith
    unfold Binary64.roundHalfEven
    rw [hf]
    push_cast
    rw [if_neg (by linarith), if_pos (by linarith)]
    ring

/-- Zero is a double. -/
theorem Binary64.fl_zero : Binary64.fl 0 = 0 := by
  simp [Binary64.fl]

/-- Rounding to a double has relative error at most `2^-53`. -/
theorem Binary64.fl_sub_abs_le (x : ℝ) : |Binary64.fl x - x| ≤ |x| * (1 / 2 ^ 53) := by
  by_cases hx : x = 0
  · subst hx
    simp [Binary64.fl_zero]
  · have hpos : 0 < |x| := abs_pos.mpr hx
    have hlog := Int.zpow_log_le_self (b := 2) (by norm_num) hpos
    have hu : (0 : ℝ) < (2 : ℝ) ^ (Int.log 2 |x| - 52) := by positivity
    have hr := Binary64.roundHalfEven_sub_abs_le (x / (2 : ℝ) ^ (Int.log 2 |x| - 52))
    have hsplit : (2 : ℝ) ^ (Int.log 2 |x|) = (2 : ℝ) ^ (Int.log 2 |x| - 52) * 2 ^ 52 := by
      rw [zpow_sub₀ (by norm_num)]
      have : (2 : ℝ) ^ (52 : ℤ) = 2 ^ 52 := by norm_cast
      rw [this]
      field_simp
    simp only [Binary64.fl, if_neg hx]
    have key : (Binary64.roundHalfEven (x / (2 : ℝ) ^ (Int.log 2 |x| - 52)) : ℝ)
          * (2 : ℝ) ^ (Int.log 2 |x| - 52) - x
        = ((Binary64.roundHalfEven (x / (2 : ℝ) ^ (Int.log 2 |x| - 52)) : ℝ)
            - x / (2 : ℝ) ^ (Int.log 2 |x| - 52)) * (2 : ℝ) ^ (Int.log 2 |x| - 52) := by
      field_simp
    rw [key, abs_mul, abs_of_pos hu]
    have hcast : ((2 : ℕ) : ℝ) = 2 := by norm_num
    rw [hcast] at hlog
    rw [hsplit] at hlog
    calc |(Binary64.roundHalfEven (x / (2 : ℝ) ^ (Int.log 2 |x| - 52)) : ℝ)
            - x / (2 : ℝ) ^ (Int.log 2 |x| - 52)| * (2 : ℝ) ^ (Int.log 2 |x| - 52)
        ≤ 1 / 2 * (2 : ℝ) ^ (Int.log 2 |x| - 52) := by
          exact mul_le_mul_of_nonneg_right hr hu.le
      _ ≤ |x| * (1 / 2 ^ 53) := by
          have : (2 : ℝ) ^ (Int.log 2 |x| - 52) ≤ |x| / 2 ^ 52 := by
            rw [le_div_iff₀ (by positivity)]
            exact hlog
          calc 1 / 2 * (2 : ℝ) ^ (Int.log 2 |x| - 52) ≤ 1 / 2 * (|x| / 2 ^ 52) := by
                exact mul_le_mul_of_nonneg_left this (by norm_num)
            _ = |x| * (1 / 2 ^ 53) := by ring

/-- In the binade `[2^(52+k), 2^(53+k))` the doubles are the multiples of `2^k`:
a real there that is closer than half a unit to `m * 2^k` rounds to it. -/
theorem Binary64.fl_eq_of_near (k m : ℤ) (x : ℝ) (hlo : (2 : ℝ) ^ (52 + k) ≤ x)
    (hhi : x < (2 : ℝ) ^ (53 + k)) (h : |x / (2 : ℝ) ^ k - m| < 1 / 2) :
    Binary64.fl x = m * (2 : ℝ) ^ k := by
  have hxpos : 0 < x := lt_of_lt_of_le (by positivity) hlo
  have hx : x ≠ 0 := hxpos.ne'
  have habs : |x| = x := abs_of_pos hxpos
  have hlog : Int.log 2 x = 52 + k := by
    have h1 : 52 + k ≤ Int.log 2 x := by
      rw [← Int.zpow_le_iff_le_log (by norm_num) hxpos]
      exact_mod_cast hlo
    have h2 : Int.log 2 x < 53 + k := by
      rw [← Int.lt_zpow_iff_log_lt (by norm_num) hxpos]
      exact_mod_cast hhi
    omega
  simp only [Binary64.fl, if_neg hx, habs, hlog]
  have hk : (52 + k - 52 : ℤ) = k := by ring
  rw [hk, Binary64.roundHalfEven_eq_of_near _ m h]


/-- Crude form of the relative error bound. -/
theorem Binary64.fl_abs_le (x : ℝ) : |Binary64.fl x| ≤ 1.001 * |x| := by
  have h := Binary64.fl_sub_abs_le x
  have h2 : |Binary64.fl x| ≤ |Binary64.fl x - x| + |x| := by
    have := abs_add (Binary64.fl x - x) x
    simpa using this
  have h3 : |x| * (1 / 2 ^ 53) ≤ 0.001 * |x| := by
    have := abs_nonneg x
    nlinarith
  linarith

/-- Rounding keeps the sign of a non-negative real. -/
theorem Binary64.fl_nonneg {x : ℝ} (hx : 0 ≤ x) : 0 ≤ Binary64.fl x := by
  have h := Binary64.fl_sub_abs_le x
  rw [abs_of_nonneg hx, abs_le] at h
  nlinarith [h.1]

/-- Lower bound of the rounding of a non-negative real. -/
theorem Binary64.fl_ge_of_nonneg {x : ℝ} (hx : 0 ≤ x) : 0.999 * x ≤ Binary64.fl x := by
  have h := Binary64.fl_sub_abs_le x
  rw [abs_of_nonneg hx, abs_le] at h
  nlinarith [h.1]

/-- Upper bound of the rounding of a non-negative real. -/
theorem Binary64.fl_le_of_nonneg {x : ℝ} (hx : 0 ≤ x) : Binary64.fl x ≤ 1.001 * x := by
  have h := Binary64.fl_sub_abs_le x
  rw [abs_of_nonneg hx, abs_le] at h
  nlinarith [h.2]

/-- Upper bound of the rounding of a non-positive real. -/
theorem Binary64.fl_le_of_nonpos {x : ℝ} (hx : x ≤ 0) : Binary64.fl x ≤ 0.999 * x := by
  have h := Binary64.fl_sub_abs_le x
  rw [abs_of_nonpos hx, abs_le] at h
  nlinarith [h.2]

/-- Absorption at 1: `1 + δ` rounds to 1 when `δ` is below half a unit in the
last place of 1 on either side. -/
theorem Binary64.fl_one_add (δ : ℝ) (h1 : -(1 / 2 ^ 54) < δ) (h2 : δ < 1 / 2 ^ 53) :
    Binary64.fl (1 + δ) = 1 := by
  rcases le_or_lt 0 δ with hδ | hδ
  · have h := Binary64.fl_eq_of_near (-52) (2 ^ 52) (1 + δ) (by norm_num; linarith)
      (by norm_num; linarith) (by
        have : (1 + δ) / (2 : ℝ) ^ (-52 : ℤ) - ((2 ^ 52 : ℤ) : ℝ) = δ * 2 ^ 52 := by
          rw [zpow_neg]
          push_cast
          have : (2 : ℝ) ^ (52 : ℤ) = 2 ^ 52 := by norm_cast
          rw [this]
          field_simp
          ring
        rw [this, abs_of_nonneg (by positivity)]
        norm_num at h2 ⊢
        linarith)
    rw [h]
    norm_num
  · have h := Binary64.fl_eq_of_near (-53) (2 ^ 53) (1 + δ) (by norm_num; linarith)
      (by norm_num; linarith) (by
        have : (1 + δ) / (2 : ℝ) ^ (-53 : ℤ) - ((2 ^ 53 : ℤ) : ℝ) = δ * 2 ^ 53 := by
          rw [zpow_neg]
          push_cast
          have : (2 : ℝ) ^ (53 : ℤ) = 2 ^ 53 := by norm_cast
          rw [this]
          field_simp
          ring
        rw [this, abs_of_nonpos (by nlinarith)]
        norm_num at h1 ⊢
        linarith)
    rw [h]
    norm_num

/-- One is a double. -/
theorem Binary64.fl_one : Binary64.fl 1 = 1 := by
  have := Binary64.fl_one_add 0 (by norm_num) (by norm_num)
  simpa using this

/-- Magnitude of a rounded product. -/
theorem Binary64.mul_abs_le (a b : ℝ) : |Binary64.mul a b| ≤ 1.001 * (|a| * |b|) := by
  unfold Binary64.mul
  have := Binary64.fl_abs_le (a * b)
  rwa [abs_mul] at this

/-- Magnitude of a rounded sum. -/
theorem Binary64.add_abs_le (a b : ℝ) : |Binary64.add a b| ≤ 1.001 * (|a| + |b|) := by
  unfold Binary64.add
  have := Binary64.fl_abs_le (a + b)
  have h2 := abs_add a b
  nlinarith

/-- The exponential is below `10^-18` at -42. -/
theorem Binary64.exp_neg_forty_two_le : Real.exp (-42) ≤ 1 / 10 ^ 18 := by
  have h1 : Real.exp 42 = Real.exp 1 ^ 42 := by
    rw [← Real.exp_nat_mul]
    norm_num
  have h2 : (2.7 : ℝ) < Real.exp 1 := by
    have := Real.exp_one_gt_d9
    linarith
  have h3 : (2.7 : ℝ) ^ 42 ≤ Real.exp 1 ^ 42 := pow_le_pow_left₀ (by norm_num) h2.le 42
  have h4 : (10 : ℝ) ^ 18 ≤ (2.7 : ℝ) ^ 42 := by norm_num
  rw [Real.exp_neg, ← one_div]
  apply one_div_le_one_div_of_le (by positivity)
  rw [h1]
  linarith

/-- Interval bound for a rounded product. -/
theorem Binary64.mul_bound {a b A B C : ℝ} (ha : |a| ≤ A) (hb : |b| ≤ B) (hc : 1.001 * (A * B) ≤ C) :
    |Binary64.mul a b| ≤ C := by
  have h := Binary64.mul_abs_le a b
  have hab : |a| * |b| ≤ A * B :=
    mul_le_mul ha hb (abs_nonneg b) ((abs_nonneg a).trans ha)
  linarith

/-- Interval bound for a rounded sum. -/
theorem Binary64.add_bound {a b A B C : ℝ} (ha : |a| ≤ A) (hb : |b| ≤ B) (hc : 1.001 * (A + B) ≤ C) :
    |Binary64.add a b| ≤ C := by
  have h := Binary64.add_abs_le a b
  linarith

/-- The last steps of `erf` in doubles: with coefficients, `t` and the
exponential within the stated magnitudes, the product is absorbed and
`1.0 - product` is exactly 1. -/
theorem Binary64.erf_tail (a1 a2 a3 a4 a5 t E : ℝ) (h1 : |a1| ≤ 0.26) (h2 : |a2| ≤ 0.29)
    (h3 : |a3| ≤ 1.43) (h4 : |a4| ≤ 1.46) (h5 : |a5| ≤ 1.07) (ht : |t| ≤ 1.01)
    (hE : |E| ≤ 1.001 / 10 ^ 18) :
    Binary64.sub 1
      (Binary64.mul
        (Binary64.mul
          (Binary64.add
            (Binary64.mul
              (Binary64.add
                (Binary64.mul
                  (Binary64.add
                    (Binary64.mul (Binary64.add (Binary64.mul a5 t) a4) t) a3) t) a2) t) a1) t)
        E) = 1 := by
  have b1 : |Binary64.mul a5 t| ≤ 1.09 := Binary64.mul_bound h5 ht (by norm_num)
  have b2 := Binary64.add_bound (C := 2.56) b1 h4 (by norm_num)
  have b3 := Binary64.mul_bound (C := 2.6) b2 ht (by norm_num)
  have b4 := Binary64.add_bound (C := 4.04) b3 h3 (by norm_num)
  have b5 := Binary64.mul_bound (C := 4.09) b4 ht (by norm_num)
  have b6 := Binary64.add_bound (C := 4.39) b5 h2 (by norm_num)
  have b7 := Binary64.mul_bound (C := 4.44) b6 ht (by norm_num)
  have b8 := Binary64.add_bound (C := 4.71) b7 h1 (by norm_num)
  have b9 := Binary64.mul_bound (C := 5) b8 ht (by norm_num)
  have b10 := Binary64.mul_bound (C := 6 / 10 ^ 18) b9 hE (by norm_num)
  rw [abs_le] at b10
  unfold Binary64.sub
  rw [sub_eq_add_neg]
  apply Binary64.fl_one_add
  · have : (6 : ℝ) / 10 ^ 18 < 1 / 2 ^ 54 := by norm_num
    linarith [b10.2]
  · have : (6 : ℝ) / 10 ^ 18 < 1 / 2 ^ 53 := by norm_num
    linarith [b10.1]

/-- In doubles `erf` returns exactly 1 from 6.5 on. -/
theorem Binary64.erf_saturated (x : ℝ) (hx : 6.5 ≤ x) : Binary64.erf x = 1 := by
  have hx0 : 0 ≤ x := by linarith
  have hxge : x ≥ 0 := hx0
  have coef : ∀ c : ℝ, |Binary64.fl c| ≤ 1.001 * |c| := Binary64.fl_abs_le
  have h1 : |Binary64.fl 0.254829592| ≤ 0.26 := by
    refine (coef _).trans ?_
    rw [abs_of_pos (by norm_num)]
    norm_num
  have h2 : |Binary64.fl (-0.284496736)| ≤ 0.29 := by
    refine (coef _).trans ?_
    rw [abs_of_neg (by norm_num)]
    norm_num
  have h3 : |Binary64.fl 1.421413741| ≤ 1.43 := by
    refine (coef _).trans ?_
    rw [abs_of_pos (by norm_num)]
    norm_num
  have h4 : |Binary64.fl (-1.453152027)| ≤ 1.46 := by
    refine (coef _).trans ?_
    rw [abs_of_neg (by norm_num)]
    norm_num
  have h5 : |Binary64.fl 1.061405429| ≤ 1.07 := by
    refine (coef _).trans ?_
    rw [abs_of_pos (by norm_num)]
    norm_num
  -- the argument `t`
  have hp : 0 ≤ Binary64.fl 0.3275911 := Binary64.fl_nonneg (by norm_num)
  have hpx : 0 ≤ Binary64.mul (Binary64.fl 0.3275911) x := Binary64.fl_nonneg (mul_nonneg hp hx0)
  have hd : 0.999 ≤ Binary64.add 1 (Binary64.mul (Binary64.fl 0.3275911) x) := by
    have := Binary64.fl_ge_of_nonneg (x := 1 + Binary64.mul (Binary64.fl 0.3275911) x) (by linarith)
    unfold Binary64.add
    linarith
  have hdpos : 0 < Binary64.add 1 (Binary64.mul (Binary64.fl 0.3275911) x) := by linarith
  have hinv : 1 / Binary64.add 1 (Binary64.mul (Binary64.fl 0.3275911) x) ≤ 1 / 0.999 :=
    one_div_le_one_div_of_le (by norm_num) hd
  have hinv0 : 0 ≤ 1 / Binary64.add 1 (Binary64.mul (Binary64.fl 0.3275911) x) :=
    (one_div_pos.mpr hdpos).le
  have ht : |Binary64.div 1 (Binary64.add 1 (Binary64.mul (Binary64.fl 0.3275911) x))|
      ≤ 1.01 := by
    unfold Binary64.div
    rw [abs_of_nonneg (Binary64.fl_nonneg hinv0)]
    have := Binary64.fl_le_of_nonneg hinv0
    have h999 : (1 : ℝ) / 0.999 ≤ 1.002 := by norm_num
    linarith
  -- the exponential
  have hz : Binary64.mul (-x) x ≤ -42 := by
    have hneg : -x * x ≤ 0 := by nlinarith
    have := Binary64.fl_le_of_nonpos hneg
    unfold Binary64.mul
    nlinarith
  have hexp : Real.exp (Binary64.mul (-x) x) ≤ 1 / 10 ^ 18 :=
    (Real.exp_le_exp.mpr hz).trans Binary64.exp_neg_forty_two_le
  have hE : |Binary64.exp (Binary64.mul (-x) x)| ≤ 1.001 / 10 ^ 18 := by
    unfold Binary64.exp
    have hpos := (Real.exp_pos (Binary64.mul (-x) x)).le
    rw [abs_of_nonneg (Binary64.fl_nonneg hpos)]
    have := Binary64.fl_le_of_nonneg hpos
    linarith
  simp only [Binary64.erf, if_pos hxge, abs_of_nonneg hx0]
  rw [Binary64.erf_tail _ _ _ _ _ _ _ h1 h2 h3 h4 h5 ht hE]
  unfold Binary64.mul
  rw [mul_one, Binary64.fl_one]

/-- Upper bound of the square root of 2. -/
theorem Binary64.sqrt_two_le : Real.sqrt 2 ≤ 1.415 := by
  rw [Real.sqrt_le_left (by norm_num)]
  norm_num

/-- In doubles `qFunction` returns exactly 0 from 9.5 on. -/
theorem Binary64.qFunction_saturated (v : ℝ) (hv : 9.5 ≤ v) : Binary64.qFunction v = 0 := by
  have hs0 : 0 < Real.sqrt 2 := Real.sqrt_pos.mpr (by norm_num)
  have hs : Binary64.sqrt 2 ≤ 1.42 := by
    unfold Binary64.sqrt
    have := Binary64.fl_le_of_nonneg hs0.le
    have := Binary64.sqrt_two_le
    linarith
  have hspos : 0 < Binary64.sqrt 2 := by
    unfold Binary64.sqrt
    have := Binary64.fl_ge_of_nonneg hs0.le
    linarith
  have hq : 6.6 ≤ v / Binary64.sqrt 2 := by
    rw [le_div_iff₀ hspos]
    nlinarith
  have harg : 6.5 ≤ Binary64.div v (Binary64.sqrt 2) := by
    unfold Binary64.div
    have := Binary64.fl_ge_of_nonneg (x := v / Binary64.sqrt 2) (by linarith)
    linarith
  unfold Binary64.qFunction
  rw [Binary64.erf_saturated _ harg]
  simp [Binary64.sub, Binary64.mul, Binary64.fl_zero]


/-! ### Double-precision arithmetic: plateaus and ties of the running code -/

/-- C6, refuted as stated: in double arithmetic `qFunction` returns exactly 0
at 10 and at 11, so it is not strictly decreasing on `x ≥ 0`. -/
theorem qFunction_double_plateau :
    Binary64.qFunction 10 = 0 ∧ Binary64.qFunction 11 = 0
      ∧ ¬ (Binary64.qFunction 11 < Binary64.qFunction 10) := by
  have h10 := Binary64.qFunction_saturated 10 (by norm_num)
  have h11 := Binary64.qFunction_saturated 11 (by norm_num)
  refine ⟨h10, h11, ?_⟩
  rw [h10, h11]
  exact lt_irrefl _

/-- The argument handed to `qFunction` by `calculateBER` is at least 9.5 once
the scaled SNR is at least 91. -/
theorem Binary64.sqrt_mul_ge (c snr : ℝ) (h : 91 ≤ c * snr) :
    9.5 ≤ Binary64.sqrt (Binary64.mul c snr) := by
  have h1 : 90.9 ≤ Binary64.mul c snr := by
    unfold Binary64.mul
    have := Binary64.fl_ge_of_nonneg (x := c * snr) (by linarith)
    linarith
  have h2 : 9.53 ≤ Real.sqrt (Binary64.mul c snr) := by
    rw [Real.le_sqrt' (by norm_num)]
    norm_num
    linarith
  unfold Binary64.sqrt
  have := Binary64.fl_ge_of_nonneg (x := Real.sqrt (Binary64.mul c snr)) (by linarith)
  linarith

/-- A rounded product with a zero factor is zero. -/
theorem Binary64.mul_zero_right (a : ℝ) : Binary64.mul a 0 = 0 := by
  simp [Binary64.mul, Binary64.fl_zero]

/-- C7, refuted as stated: in double arithmetic `calculateBER` returns exactly
0 for BPSK at linear SNR 50 and at 100, so it is not strictly decreasing in
the SNR. -/
theorem calculateBER_double_plateau :
    Binary64.calculateBER "BPSK" 50 = some 0 ∧ Binary64.calculateBER "BPSK" 100 = some 0 := by
  constructor
  · show some (Binary64.qFunction (Binary64.sqrt (Binary64.mul 2 50))) = some 0
    rw [Binary64.qFunction_saturated _ (Binary64.sqrt_mul_ge 2 50 (by norm_num))]
  · show some (Binary64.qFunction (Binary64.sqrt (Binary64.mul 2 100))) = some 0
    rw [Binary64.qFunction_saturated _ (Binary64.sqrt_mul_ge 2 100 (by norm_num))]

/-- C14, refuted as stated: in double arithmetic `calculateBER` returns exactly
0 for QPSK at linear SNR 64 and for 64-QAM at linear SNR 200, which is not
strictly above 0. -/
theorem calculateBER_double_zero :
    Binary64.calculateBER "QPSK" 64 = some 0 ∧ Binary64.calculateBER "64-QAM" 200 = some 0 := by
  constructor
  · show some (Binary64.qFunction (Binary64.sqrt (Binary64.mul 2 64))) = some 0
    rw [Binary64.qFunction_saturated _ (Binary64.sqrt_mul_ge 2 64 (by norm_num))]
  · show some (Binary64.mul (Binary64.div 7 24)
        (Binary64.qFunction (Binary64.sqrt (Binary64.mul (Binary64.div 6 7) 200)))) = some 0
    have hc : 0.85 ≤ Binary64.div 6 7 := by
      unfold Binary64.div
      have := Binary64.fl_ge_of_nonneg (x := (6 : ℝ) / 7) (by norm_num)
      have h67 : (0.857 : ℝ) ≤ 6 / 7 := by norm_num
      linarith
    rw [Binary64.qFunction_saturated _
      (Binary64.sqrt_mul_ge _ 200 (by linarith)), Binary64.mul_zero_right]

/-- C11, refuted as stated: in double arithmetic, with `10^18` users the
spectral efficiency is exactly 0 both at 1 and at 2 antennas (`1 + 25 * (a / u)`
rounds to 1), so it is not strictly increasing in the antenna count. -/
theorem spectralEfficiency_double_tie :
    (Binary64.calculatePerformance 1 (10 ^ 18)).spectralEfficiency = 0
      ∧ (Binary64.calculatePerformance 2 (10 ^ 18)).spectralEfficiency = 0 := by
  have key : ∀ a : ℝ, 0 ≤ a → a ≤ 2 →
      (Binary64.calculatePerformance a (10 ^ 18)).spectralEfficiency = 0 := by
    intro a ha0 ha2
    have hq0 : (0 : ℝ) ≤ a / 10 ^ 18 := by positivity
    have hq : a / 10 ^ 18 ≤ 2 / 10 ^ 18 := by
      apply div_le_div_of_nonneg_right ha2 (by positivity)
    have hd0 : 0 ≤ Binary64.div a (10 ^ 18) := Binary64.fl_nonneg hq0
    have hd : Binary64.div a (10 ^ 18) ≤ 1.001 * (2 / 10 ^ 18) := by
      unfold Binary64.div
      have := Binary64.fl_le_of_nonneg hq0
      linarith
    have hm0 : 0 ≤ Binary64.mul 25 (Binary64.div a (10 ^ 18)) :=
      Binary64.fl_nonneg (by positivity)
    have hm : Binary64.mul 25 (Binary64.div a (10 ^ 18)) < 1 / 2 ^ 53 := by
      have := Binary64.fl_le_of_nonneg (x := 25 * Binary64.div a (10 ^ 18)) (by positivity)
      unfold Binary64.mul
      have hnum : (1.001 : ℝ) * (25 * (1.001 * (2 / 10 ^ 18))) < 1 / 2 ^ 53 := by norm_num
      nlinarith
    have hone : Binary64.add 1 (Binary64.mul 25 (Binary64.div a (10 ^ 18))) = 1 := by
      unfold Binary64.add
      exact Binary64.fl_one_add _ (lt_of_lt_of_le (by norm_num) hm0) hm
    simp only [Binary64.calculatePerformance]
    rw [hone]
    simp [Binary64.log2, Binary64.fl_zero]
  exact ⟨key 1 (by norm_num) (by norm_num), key 2 (by norm_num) le_rfl⟩

/-- Two is a double. -/
theorem Binary64.fl_two : Binary64.fl 2 = 2 := by
  have h := Binary64.fl_eq_of_near (-51) (2 ^ 52) 2 (by norm_num) (by norm_num) (by
    have : (2 : ℝ) / (2 : ℝ) ^ (-51 : ℤ) - ((2 ^ 52 : ℤ) : ℝ) = 0 := by
      rw [zpow_neg]
      push_cast
      have : (2 : ℝ) ^ (51 : ℤ) = 2 ^ 51 := by norm_cast
      rw [this]
      norm_num
    rw [this]
    norm_num)
  rw [h]
  norm_num

/-- Absorption at 40: `40 + δ` rounds to 40 when `δ` is below half a unit in
the last place of 40 (`2^-48`). -/
theorem Binary64.fl_forty_add (δ : ℝ) (h : |δ| < 1 / 2 ^ 48) : Binary64.fl (40 + δ) = 40 := by
  have hb := abs_lt.mp h
  have hsmall : (1 : ℝ) / 2 ^ 48 < 1 := by norm_num
  have hn := Binary64.fl_eq_of_near (-47) (40 * 2 ^ 47) (40 + δ)
    (by norm_num; linarith [hb.1]) (by norm_num; linarith [hb.2]) (by
      have : (40 + δ) / (2 : ℝ) ^ (-47 : ℤ) - ((40 * 2 ^ 47 : ℤ) : ℝ) = δ * 2 ^ 47 := by
        rw [zpow_neg]
        push_cast
        have : (2 : ℝ) ^ (47 : ℤ) = 2 ^ 47 := by norm_cast
        rw [this]
        field_simp
        ring
      rw [this, abs_mul, abs_of_pos (by positivity : (0 : ℝ) < 2 ^ 47)]
      have h48 : (1 : ℝ) / 2 ^ 48 * 2 ^ 47 = 1 / 2 := by norm_num
      nlinarith [abs_nonneg δ])
  rw [hn]
  norm_num

/-- The natural logarithm of 10 is above 2. -/
theorem two_lt_log_ten : (2 : ℝ) < Real.log 10 := by
  have h8 : Real.log 8 = 3 * Real.log 2 := by
    rw [show (8 : ℝ) = 2 ^ 3 by norm_num, Real.log_pow]
    norm_num
  have h2 := Real.log_two_gt_d9
  have hlt : Real.log 8 < Real.log 10 := Real.log_lt_log (by norm_num) (by norm_num)
  linarith

/-- The decimal logarithm of the double just below 1 is tiny: between
`-(0.51 / 2^53)` and 0. -/
theorem logb_ten_pred_one :
    -(0.51 / 2 ^ 53) ≤ Real.logb 10 (1 - 1 / 2 ^ 53) ∧ Real.logb 10 (1 - 1 / 2 ^ 53) ≤ 0 := by
  have hx : (0 : ℝ) < 1 - 1 / 2 ^ 53 := by norm_num
  have hlow := Real.one_sub_inv_le_log_of_pos hx
  have hinv : (1 - 1 / 2 ^ 53 : ℝ)⁻¹ ≤ 1 + 1.01 / 2 ^ 53 := by
    rw [inv_le_comm₀ hx (by norm_num)]
    norm_num
  have hup : Real.log (1 - 1 / 2 ^ 53) ≤ 0 := Real.log_nonpos hx.le (by norm_num)
  have hlog10 := two_lt_log_ten
  unfold Real.logb
  constructor
  · rw [le_div_iff₀ (by linarith)]
    nlinarith
  · exact div_nonpos_of_nonpos_of_nonneg hup (by linarith)

/-- C10, refuted as stated: in double arithmetic `indoorModel` returns the same
loss at the distance `1 - 2^-53` (the double just below 1) and at the distance
1, at frequency 100: `40 * log10 d` is absorbed in the sum. -/
theorem indoorModel_double_tie :
    (1 - 1 / 2 ^ 53 : ℝ) < 1
      ∧ Binary64.indoorModel 100 (1 - 1 / 2 ^ 53) = Binary64.indoorModel 100 1 := by
  refine ⟨by norm_num, ?_⟩
  have hB : Binary64.mul 20 (Binary64.log10 100) = 40 := by
    have h100 : Real.logb 10 100 = 2 := by
      rw [show (100 : ℝ) = 10 ^ (2 : ℕ) by norm_num, Real.logb_pow]
      rw [Real.logb_self_eq_one (by norm_num)]
      norm_num
    unfold Binary64.log10 Binary64.mul
    rw [h100, Binary64.fl_two]
    have := Binary64.fl_forty_add 0 (by norm_num)
    norm_num at this ⊢
    exact this
  have hL0 : Binary64.log10 1 = 0 := by
    simp [Binary64.log10, Binary64.fl_zero]
  have hLabs : |Binary64.log10 (1 - 1 / 2 ^ 53)| ≤ 1.001 * (0.51 / 2 ^ 53) := by
    unfold Binary64.log10
    refine (Binary64.fl_abs_le _).trans ?_
    have h := logb_ten_pred_one
    rw [abs_of_nonpos h.2]
    linarith [h.1]
  have hm : |Binary64.mul 40 (Binary64.log10 (1 - 1 / 2 ^ 53))| < 1 / 2 ^ 48 := by
    have h40 : |(40 : ℝ)| ≤ 40 := by norm_num
    have := Binary64.mul_bound (C := 21 / 2 ^ 53) h40 hLabs (by norm_num)
    have hnum : (21 : ℝ) / 2 ^ 53 < 1 / 2 ^ 48 := by norm_num
    linarith
  have hS1 : Binary64.add (Binary64.mul 40 (Binary64.log10 (1 - 1 / 2 ^ 53)))
      (Binary64.mul 20 (Binary64.log10 100)) = 40 := by
    rw [hB]
    unfold Binary64.add
    rw [add_comm]
    exact Binary64.fl_forty_add _ hm
  have hS2 : Binary64.add (Binary64.mul 40 (Binary64.log10 1))
      (Binary64.mul 20 (Binary64.log10 100)) = 40 := by
    rw [hB, hL0, Binary64.mul_zero_right]
    unfold Binary64.add
    rw [add_comm]
    exact Binary64.fl_forty_add 0 (by norm_num)
  unfold Binary64.indoorModel
  rw [hS1, hS2]

end

end FiveG
